import Mathlib

/-
Shallow embedding of the data_flux ingestion pipeline
(src/data_flux: api_schema.py, validator.py, data_schema.py,
endpoints.py, ingest.py).

Modelling conventions:
- JSON payloads returned by the HTTP client are modelled by the
  inductive type `Json` (no booleans or floats appear in the schemas
  under study).
- A failed fetch is the absent marker `none` (client.py returns None on
  any request error), so a raw page slot is an `Option Json`.
- pydantic model validation is embedded per schema: required
  positive-int fields demand an integer value > 0; `Optional[str]`
  fields accept an absent key, an explicit null, or a string.  The lax
  numeric-string coercion of pydantic ("7" for 7) is not exercised by
  any claim and is not modelled.
- The `Union[UserSchema, TrackSchema, ListenHistorySchema]` item field
  uses pydantic v2 smart-union resolution: every member that validates
  is scored by the number of recognized fields set on it, the highest
  score wins, and earlier members win ties.  For these three schemas
  all successful matches of one input always have the same strictness
  exactness, so the fields-set count plus member order decides.
- Exceptions escaping a method (AttributeError, ConnectionError,
  pydantic ValidationError) are modelled by `none` / explicit error
  values at the call boundary.
- Python float arithmetic (the true division inside the page-count
  formula) is modelled by rounding the exact rational quotient to the
  nearest binary64 value, 53 significant bits with ties to even, which
  is exactly what CPython's int true division produces.
-/

/-- JSON-like values exchanged with the API. -/
inductive Json where
  | null : Json
  | int (n : Int) : Json
  | str (s : String) : Json
  | arr (xs : List Json) : Json
  | obj (fields : List (String × Json)) : Json

/-- Validated user record (api_schema.py UserSchema, including the
BaseSchema timestamp fields). -/
structure UserRec where
  created_at : Option String
  updated_at : Option String
  id : Int
  first_name : Option String
  last_name : Option String
  email : Option String
  gender : Option String
  favorite_genres : Option String
deriving DecidableEq

/-- Validated track record (api_schema.py TrackSchema). -/
structure TrackRec where
  created_at : Option String
  updated_at : Option String
  id : Int
  name : Option String
  artist : Option String
  songwriters : Option String
  duration : Option String
  genres : Option String
  album : Option String
deriving DecidableEq

/-- Validated listen-history record (api_schema.py ListenHistorySchema). -/
structure ListenRec where
  created_at : Option String
  updated_at : Option String
  user_id : Int
  items : Option (List Int)
deriving DecidableEq

/-- One validated item of a page: the union of the three record schemas. -/
inductive Record where
  | user (u : UserRec) : Record
  | track (t : TrackRec) : Record
  | listen (l : ListenRec) : Record
deriving DecidableEq

/-- Validated page envelope (api_schema.py ApiSchema). -/
structure Envelope where
  total : Int
  page : Int
  size : Int
  pages : Int
  items : List Record
deriving DecidableEq

/-- First binding of a key in a JSON object (Python dict lookup; dicts
have no duplicate keys). -/
def lookupField (o : List (String × Json)) (k : String) : Option Json :=
  match o with
  | [] => none
  | (k2, v) :: rest => if k2 = k then some v else lookupField rest k

/-- pydantic `PositiveInt`: a required field must be present and be an
integer strictly greater than zero. -/
def asPosInt (v : Option Json) : Option Int :=
  match v with
  | some (Json.int n) => if 0 < n then some n else none
  | _ => none

/-- pydantic `Optional[str] = None`: absent or null gives None, a string
is kept, anything else is a validation failure. -/
def asOptStr (v : Option Json) : Option (Option String) :=
  match v with
  | none => some none
  | some Json.null => some none
  | some (Json.str s) => some (some s)
  | some _ => none

/-- Element check for `List[PositiveInt]`. -/
def asPosIntList (xs : List Json) : Option (List Int) :=
  match xs with
  | [] => some []
  | Json.int n :: rest =>
      if 0 < n then (asPosIntList rest).map (fun l => n :: l) else none
  | _ => none

/-- pydantic `Optional[List[PositiveInt]] = Field(None, min_items=0)`. -/
def asOptIdList (v : Option Json) : Option (Option (List Int)) :=
  match v with
  | none => some none
  | some Json.null => some none
  | some (Json.arr xs) => (asPosIntList xs).map some
  | some _ => none

/-- Validation of one JSON object against UserSchema. -/
def validateUser (o : List (String × Json)) : Option UserRec :=
  match asOptStr (lookupField o ("created_at")),
        asOptStr (lookupField o ("updated_at")),
        asPosInt (lookupField o ("id")),
        asOptStr (lookupField o ("first_name")),
        asOptStr (lookupField o ("last_name")),
        asOptStr (lookupField o ("email")),
        asOptStr (lookupField o ("gender")),
        asOptStr (lookupField o ("favorite_genres")) with
  | some ca, some ua, some i, some fn, some ln, some em, some ge, some fg =>
      some ⟨ca, ua, i, fn, ln, em, ge, fg⟩
  | _, _, _, _, _, _, _, _ => none

/-- Validation of one JSON object against TrackSchema. -/
def validateTrack (o : List (String × Json)) : Option TrackRec :=
  match asOptStr (lookupField o ("created_at")),
        asOptStr (lookupField o ("updated_at")),
        asPosInt (lookupField o ("id")),
        asOptStr (lookupField o ("name")),
        asOptStr (lookupField o ("artist")),
        asOptStr (lookupField o ("songwriters")),
        asOptStr (lookupField o ("duration")),
        asOptStr (lookupField o ("genres")),
        asOptStr (lookupField o ("album")) with
  | some ca, some ua, some i, some nm, some ar, some sw, some du, some gn, some al =>
      some ⟨ca, ua, i, nm, ar, sw, du, gn, al⟩
  | _, _, _, _, _, _, _, _, _ => none

/-- Validation of one JSON object against ListenHistorySchema. -/
def validateListen (o : List (String × Json)) : Option ListenRec :=
  match asOptStr (lookupField o ("created_at")),
        asOptStr (lookupField o ("updated_at")),
        asPosInt (lookupField o ("user_id")),
        asOptIdList (lookupField o ("items")) with
  | some ca, some ua, some ui, some its => some ⟨ca, ua, ui, its⟩
  | _, _, _, _ => none

/-- Recognized field names of UserSchema. -/
def userFieldNames : List String :=
  [("created_at"), ("updated_at"), ("id"), ("first_name"), ("last_name"),
   ("email"), ("gender"), ("favorite_genres")]

/-- Recognized field names of TrackSchema. -/
def trackFieldNames : List String :=
  [("created_at"), ("updated_at"), ("id"), ("name"), ("artist"),
   ("songwriters"), ("duration"), ("genres"), ("album")]

/-- Recognized field names of ListenHistorySchema. -/
def listenFieldNames : List String :=
  [("created_at"), ("updated_at"), ("user_id"), ("items")]

/-- Number of recognized fields of a schema that the input object sets
(pydantic model `fields_set`, used by smart-union scoring). -/
def fieldsSetCount (o : List (String × Json)) (names : List String) : Nat :=
  (names.filter (fun k => (lookupField o k).isSome)).length

/-- Smart-union choice: keep the candidate with the highest fields-set
score; on ties the earlier union member wins. -/
def pickBest (cands : List (Nat × Record)) : Option (Nat × Record) :=
  match cands with
  | [] => none
  | x :: xs =>
      match pickBest xs with
      | none => some x
      | some y => if x.1 < y.1 then some y else some x

/-- Union member discrimination for one item object
(`Union[UserSchema, TrackSchema, ListenHistorySchema]` under pydantic
v2 smart mode). -/
def discriminateItem (o : List (String × Json)) : Option Record :=
  let cands : List (Nat × Record) :=
    (match validateUser o with
     | some u => [(fieldsSetCount o userFieldNames, Record.user u)]
     | none => []) ++
    (match validateTrack o with
     | some t => [(fieldsSetCount o trackFieldNames, Record.track t)]
     | none => []) ++
    (match validateListen o with
     | some l => [(fieldsSetCount o listenFieldNames, Record.listen l)]
     | none => [])
  (pickBest cands).map (fun y => y.2)

/-- Validation of the `items` list: every entry must be a JSON object
matching one of the union members. -/
def validateItems (xs : List Json) : Option (List Record) :=
  match xs with
  | [] => some []
  | Json.obj io :: rest =>
      match discriminateItem io with
      | some r => (validateItems rest).map (fun l => r :: l)
      | none => none
  | _ => none

/-- `ApiValidator.validate` (validator.py): validate a raw response
against ApiSchema; on any pydantic ValidationError it logs and returns
None, embedded as `none`. -/
def ApiValidator.validate (j : Json) : Option Envelope :=
  match j with
  | Json.obj o =>
      match asPosInt (lookupField o ("total")),
            asPosInt (lookupField o ("page")),
            asPosInt (lookupField o ("size")),
            asPosInt (lookupField o ("pages")),
            lookupField o ("items") with
      | some t, some p, some s, some pg, some (Json.arr xs) =>
          match validateItems xs with
          | some items =>
              if 1 ≤ items.length then some ⟨t, p, s, pg, items⟩ else none
          | none => none
      | _, _, _, _, _ => none
  | _ => none

/-- Common persisted fields (data_schema.py BaseDataSchema): pydantic
construction validates `version_id : PositiveInt`. -/
structure BaseDataSchema where
  created_at : Option String
  updated_at : Option String
  version_id : Int
deriving DecidableEq

/-- Persisted user record (data_schema.py UserDataSchema). -/
structure UserDataSchema where
  created_at : Option String
  updated_at : Option String
  version_id : Int
  id : Int
  first_name : Option String
  last_name : Option String
  email : Option String
  gender : Option String
  favorite_genres : Option String
deriving DecidableEq

/-- Persisted track record (data_schema.py TrackDataSchema). -/
structure TrackDataSchema where
  created_at : Option String
  updated_at : Option String
  version_id : Int
  id : Int
  name : Option String
  artist : Option String
  songwriters : Option String
  duration : Option String
  genres : Option String
  album : Option String
deriving DecidableEq

/-- Persisted listen-history record (data_schema.py
ListenHistoryDataSchema). -/
structure ListenHistoryDataSchema where
  created_at : Option String
  updated_at : Option String
  version_id : Int
  user_id : Int
  items : Option (List Int)
deriving DecidableEq

/-- A record mapped for persistence: one of the three data schemas. -/
inductive DataRecord where
  | user (u : UserDataSchema) : DataRecord
  | track (t : TrackDataSchema) : DataRecord
  | listen (l : ListenHistoryDataSchema) : DataRecord
deriving DecidableEq

/-- build_common_data_schema (data_schema.py): constructing
BaseDataSchema re-validates its fields, so a non-positive version_id
raises a ValidationError, embedded as `none`. -/
def build_common_data_schema (created_at updated_at : Option String)
    (version_id : Int) : Option BaseDataSchema :=
  if 0 < version_id then some ⟨created_at, updated_at, version_id⟩ else none

/-- build_user_data_schema (data_schema.py): pydantic re-validates the
UserDataSchema fields on construction. -/
def build_user_data_schema (data : UserRec) (version_id : Int) :
    Option UserDataSchema :=
  match build_common_data_schema data.created_at data.updated_at version_id with
  | none => none
  | some c =>
      if 0 < data.id then
        some ⟨c.created_at, c.updated_at, c.version_id, data.id,
              data.first_name, data.last_name, data.email, data.gender,
              data.favorite_genres⟩
      else none

/-- build_track_data_schema (data_schema.py). -/
def build_track_data_schema (data : TrackRec) (version_id : Int) :
    Option TrackDataSchema :=
  match build_common_data_schema data.created_at data.updated_at version_id with
  | none => none
  | some c =>
      if 0 < data.id then
        some ⟨c.created_at, c.updated_at, c.version_id, data.id,
              data.name, data.artist, data.songwriters, data.duration,
              data.genres, data.album⟩
      else none

/-- Element well-typedness for the persisted listen-history item list. -/
def allPosInt (xs : Option (List Int)) : Bool :=
  match xs with
  | none => true
  | some l => l.all (fun n => decide (0 < n))

/-- build_listen_history_data_schema (data_schema.py). -/
def build_listen_history_data_schema (data : ListenRec) (version_id : Int) :
    Option ListenHistoryDataSchema :=
  match build_common_data_schema data.created_at data.updated_at version_id with
  | none => none
  | some c =>
      if 0 < data.user_id ∧ allPosInt data.items then
        some ⟨c.created_at, c.updated_at, c.version_id, data.user_id,
              data.items⟩
      else none

/-- Endpoints enumeration (endpoints.py). -/
inductive Endpoints where
  | TRACKS : Endpoints
  | USERS : Endpoints
  | LISTEN_HISTORY : Endpoints
deriving DecidableEq

/-- Path string of each endpoint (endpoints.py enum values). -/
def Endpoints.value (e : Endpoints) : String :=
  match e with
  | Endpoints.TRACKS => "/tracks"
  | Endpoints.USERS => "/users"
  | Endpoints.LISTEN_HISTORY => "/listen_history"

/-- endpoint_builder_map (data_schema.py): the builder registered for an
endpoint, as a function on validated records.  Applying a builder to a
record of another variant accesses attributes that do not exist on it,
raising AttributeError in Python: embedded as `none`. -/
def endpoint_builder_map (e : Endpoints) : Record → Int → Option DataRecord :=
  match e with
  | Endpoints.USERS => fun r v =>
      match r with
      | Record.user u => (build_user_data_schema u v).map DataRecord.user
      | _ => none
  | Endpoints.TRACKS => fun r v =>
      match r with
      | Record.track t => (build_track_data_schema t v).map DataRecord.track
      | _ => none
  | Endpoints.LISTEN_HISTORY => fun r v =>
      match r with
      | Record.listen l =>
          (build_listen_history_data_schema l v).map DataRecord.listen
      | _ => none

/-- One HTTP GET issued by the client: endpoint path plus the page/size
query parameters (client.py fetch). -/
structure Request where
  endpoint : String
  page : Nat
  size : Nat
deriving DecidableEq

/-- Log levels of the observability sink (logger.py). -/
inductive LogLevel where
  | info : LogLevel
  | debug : LogLevel
  | warning : LogLevel
  | error : LogLevel
deriving DecidableEq

/-- One leveled log event. -/
structure LogEvent where
  level : LogLevel
  msg : String
deriving DecidableEq

/-- Executor state (ingest.py Ingest): the client and validator are
passed explicitly to the operations; `none` in a raw slot is the absent
marker for a failed fetch. -/
structure Ingest where
  request_num : Nat
  data_raw : List (Option Json)
  data_validated : List Record

/-- Ingest.__init__: empty accumulators. -/
def Ingest.init (request_num : Nat) : Ingest :=
  ⟨request_num, [], []⟩

/-- Page numbers of Python `range(start_page, request_num + 1)`. -/
def pageList (start_page request_num : Nat) : List Nat :=
  List.range' start_page (request_num + 1 - start_page)

/-- The requests Ingest.execute issues: one per page number in
`[start_page, request_num]`, each with query page=n, size=size. -/
def Ingest.requests (ing : Ingest) (endpoint : String)
    (size start_page : Nat) : List Request :=
  (pageList start_page ing.request_num).map (fun p => ⟨endpoint, p, size⟩)

/-- Results delivered as the in-flight tasks complete: `order` lists
task indices in completion order; each completed task contributes its
index paired with its result. -/
def completions (tasks : List (Option Json)) (order : List Nat) :
    List (Nat × Option Json) :=
  match order with
  | [] => []
  | i :: rest =>
      match tasks.get? i with
      | some v => (i, v) :: completions tasks rest
      | none => completions tasks rest

/-- asyncio.gather semantics: the result slot of task `i` is filled from
whatever completion carries index `i`, so the output order is the task
order, not the completion order. -/
def gatherByIndex (tasks : List (Option Json)) (order : List Nat) :
    List (Option (Option Json)) :=
  (List.range tasks.length).map (fun i => (completions tasks order).lookup i)

/-- Ingest.execute: launch one fetch per page and store the gathered
results, in task (= page) order, overwriting data_raw. -/
def Ingest.execute (ing : Ingest) (fetch : Request → Option Json)
    (endpoint : String) (size start_page : Nat) : Ingest :=
  { ing with data_raw := (ing.requests endpoint size start_page).map fetch }

/-- The loop body of Ingest.validate: walks the raw results, skipping
absent ones with a warning and extending the accumulated records with
each page's validated items.  When ApiValidator.validate returns the
None failure marker, the Python code still evaluates `validated.items`,
so an AttributeError escapes: embedded as a `none` final state (after
the validator's own error log). -/
def validateStep (raw : List (Option Json)) (acc : List Record)
    (log : List LogEvent) : List LogEvent × Option (List Record) :=
  match raw with
  | [] => (log, some acc)
  | none :: rest =>
      validateStep rest acc
        (log ++ [⟨LogLevel.warning, ("Fetched data is invalid.")⟩])
  | some resp :: rest =>
      match ApiValidator.validate resp with
      | none => (log ++ [⟨LogLevel.error, ("Validation failed")⟩], none)
      | some v =>
          let acc2 := acc ++ v.items
          let ev : LogEvent :=
            if acc2.isEmpty then
              ⟨LogLevel.info,
               ("No validated items found. Please check the validation process.")⟩
            else ⟨LogLevel.debug, ("Validated items.")⟩
          validateStep rest acc2 (log ++ [ev])

/-- Ingest.validate (ingest.py): processes data_raw in page order,
extending data_validated; returns the log and the post-state, `none`
when the run aborts with the uncaught AttributeError. -/
def Ingest.validate (ing : Ingest) : List LogEvent × Option Ingest :=
  match validateStep ing.data_raw ing.data_validated [] with
  | (log, some dv) => (log, some { ing with data_validated := dv })
  | (log, none) => (log, none)

/-- Round a rational to the nearest integer, ties to even (the IEEE-754
default rounding of the last retained bit). -/
def roundHalfEven (x : ℚ) : ℤ :=
  if x - ⌊x⌋ < 1 / 2 then ⌊x⌋
  else if 1 / 2 < x - ⌊x⌋ then ⌊x⌋ + 1
  else if 2 ∣ ⌊x⌋ then ⌊x⌋ else ⌊x⌋ + 1

/-- The IEEE-754 binary64 value nearest a nonnegative rational: the
significand is rounded to 53 bits, ties to even.  CPython's int true
division (longobject.c long_true_divide) returns exactly this correctly
rounded double of the exact quotient.  The exponent is left unbounded:
subnormal underflow and overflow to infinity lie outside the modelled
domain, and every quotient appearing in the theorems below is in the
normal range. -/
def roundFloat (q : ℚ) : ℚ :=
  if q ≤ 0 then 0
  else ((roundHalfEven (q * (2 : ℚ) ^ ((52 : ℤ) - Int.log 2 q)) : ℤ) : ℚ) *
    (2 : ℚ) ^ (Int.log 2 q - (52 : ℤ))

/-- `int(math.ceil(total / request_size))` (ingest.py configure):
float true division of the two integers, then math.ceil, which is exact
on the resulting double. -/
def computeRequestNum (total : Int) (size : Nat) : Int :=
  ⌈roundFloat ((total : ℚ) / (size : ℚ))⌉

/-- The exact ceiling of total over page size: the formula
`ceil(total / page_size)` as the spec words it, to be compared with the
float computation the code performs. -/
def exactCeilDiv (total : Int) (size : Nat) : Int :=
  ⌈(total : ℚ) / (size : ℚ)⌉

/-- Failures escaping IngestManager.configure: the explicit
ConnectionError raised on an absent probe, and the AttributeError from
touching `.pages` on a None validator result. -/
inductive ConfigError where
  | connectionError : ConfigError
  | attributeError : ConfigError
deriving DecidableEq

/-- Manager state (ingest.py IngestManager): all configuration fields
start unset (None). -/
structure IngestManager where
  version_id : Int
  endpoint : Endpoints
  ingest : Option Ingest
  request_size : Option Nat
  request_num : Option Int
  pages : Option Int
  total : Option Int

/-- IngestManager.__init__. -/
def IngestManager.init (version_id : Int) (endpoint : Endpoints) :
    IngestManager :=
  ⟨version_id, endpoint, none, none, none, none, none⟩

/-- IngestManager.configure: probe fetch with page=1 and the requested
size.  An absent probe raises ConnectionError before any field is
assigned; a probe that fails validation raises AttributeError, also
before any assignment.  On success every configuration field is set and
the Executor is constructed.  Returns the (possibly unchanged) manager
together with the error, if any. -/
def IngestManager.configure (m : IngestManager)
    (fetch : Request → Option Json) (request_size : Nat)
    (total : Option Int) : IngestManager × Option ConfigError :=
  match fetch ⟨m.endpoint.value, 1, request_size⟩ with
  | none => (m, some ConfigError.connectionError)
  | some data =>
      match ApiValidator.validate data with
      | none => (m, some ConfigError.attributeError)
      | some v =>
          let tot : Int := total.getD v.total
          let num : Int := computeRequestNum tot request_size
          ({ m with
              pages := some v.pages
              total := some tot
              request_size := some request_size
              request_num := some num
              ingest := some (Ingest.init num.toNat) }, none)

/-- Mapping of every validated record through one builder
(`[build_function(data, version_id) for data in data_validated]`): the
whole comprehension aborts if any single mapping raises. -/
def buildAll (build : Record → Int → Option DataRecord) (version_id : Int)
    (rs : List Record) : Option (List DataRecord) :=
  match rs with
  | [] => some []
  | r :: rest =>
      match build r version_id with
      | some p => (buildAll build version_id rest).map (fun l => p :: l)
      | none => none

/-- Observable outcome of a completed IngestManager.run. -/
structure RunOutcome where
  manager : IngestManager
  requests : List Request
  log : List LogEvent
  persisted : Option (List DataRecord)

/-- IngestManager.run: execute all configured pages, validate, and when
save is requested map every validated record with the endpoint's
builder.  `none` is any uncaught exception (unconfigured manager,
AttributeError inside validate, or a failing builder). -/
def IngestManager.run (m : IngestManager) (fetch : Request → Option Json)
    (save : Bool) : Option RunOutcome :=
  match m.ingest, m.request_size with
  | some ing, some size =>
      let reqs := ing.requests m.endpoint.value size 1
      let ing1 := ing.execute fetch m.endpoint.value size 1
      match ing1.validate with
      | (log, some ing2) =>
          if save then
            match buildAll (endpoint_builder_map m.endpoint) m.version_id
                ing2.data_validated with
            | some ps =>
                some ⟨{ m with ingest := some ing2 }, reqs, log, some ps⟩
            | none => none
          else some ⟨{ m with ingest := some ing2 }, reqs, log, none⟩
      | (_, none) => none
  | _, _ => none

/-- Well-formedness of a validated user record: the invariant that
UserSchema validation guarantees. -/
def WFUser (u : UserRec) : Prop := 0 < u.id

/-- Well-formedness of a validated track record. -/
def WFTrack (t : TrackRec) : Prop := 0 < t.id

/-- Well-formedness of a validated listen-history record. -/
def WFListen (l : ListenRec) : Prop :=
  0 < l.user_id ∧ allPosInt l.items = true

/-- Well-formedness of any validated record. -/
def WFRecord (r : Record) : Prop :=
  match r with
  | Record.user u => WFUser u
  | Record.track t => WFTrack t
  | Record.listen l => WFListen l

/-- Ghost specification of one validate pass over stored raw results:
the records the pass appends, page by page, or `none` when some present
payload fails validation (the crashing case). -/
def pageContrib (raw : List (Option Json)) : Option (List Record) :=
  match raw with
  | [] => some []
  | none :: rest => pageContrib rest
  | some resp :: rest =>
      match ApiValidator.validate resp with
      | none => none
      | some v => (pageContrib rest).map (fun l => v.items ++ l)

/-- The mapper registered for the variant of a record (the coherent
endpoint/record pairing of endpoint_builder_map). -/
def builderFor (r : Record) : Record → Int → Option DataRecord :=
  match r with
  | Record.user _ => endpoint_builder_map Endpoints.USERS
  | Record.track _ => endpoint_builder_map Endpoints.TRACKS
  | Record.listen _ => endpoint_builder_map Endpoints.LISTEN_HISTORY

/-- A minimal user item object carrying only an id. -/
def userItem (n : Int) : Json := Json.obj [(("id"), Json.int n)]

/-- The record a minimal user item validates to. -/
def userRecOf (n : Int) : Record :=
  Record.user ⟨none, none, n, none, none, none, none, none⟩

/-- A well-formed page envelope carrying ten user items. -/
def env10 : Json := Json.obj
  [(("total"), Json.int 50), (("page"), Json.int 1), (("size"), Json.int 10),
   (("pages"), Json.int 5),
   (("items"), Json.arr [userItem 1, userItem 2, userItem 3, userItem 4,
                         userItem 5, userItem 6, userItem 7, userItem 8,
                         userItem 9, userItem 10])]

/-- The envelope env10 validates to. -/
def env10Rec : Envelope :=
  ⟨50, 1, 10, 5,
   [userRecOf 1, userRecOf 2, userRecOf 3, userRecOf 4, userRecOf 5,
    userRecOf 6, userRecOf 7, userRecOf 8, userRecOf 9, userRecOf 10]⟩

/-- A page payload whose items list is empty: it fails ApiSchema
validation (min_items 1). -/
def badEnv : Json := Json.obj
  [(("total"), Json.int 1), (("page"), Json.int 1), (("size"), Json.int 10),
   (("pages"), Json.int 1), (("items"), Json.arr [])]

/-- Executor state for five pages whose third fetch came back absent and
whose other four fetches returned env10. -/
def st5 : Ingest :=
  ⟨5, [some env10, some env10, none, some env10, some env10], []⟩

theorem lookup_completions_not_mem (tasks : List (Option Json))
    (order : List Nat) (i : Nat) (h : i ∉ order) :
    (completions tasks order).lookup i = none := by
  induction order with
  | nil => rfl
  | cons j rest ih =>
      have hij : i ≠ j := by
        intro heq
        exact h (by simp [heq])
      have hrest : i ∉ rest := fun hm => h (by simp [hm])
      have hb : (i == j) = false := by simpa using hij
      cases hj : tasks.get? j with
      | none =>
          simp only [completions, hj]
          exact ih hrest
      | some v =>
          simp only [completions, hj, List.lookup, hb]
          exact ih hrest

theorem lookup_completions_mem (tasks : List (Option Json))
    (order : List Nat) (hnd : order.Nodup) (i : Nat) (hi : i ∈ order) :
    (completions tasks order).lookup i = tasks.get? i := by
  induction order with
  | nil => cases hi
  | cons j rest ih =>
      by_cases hij : i = j
      · subst hij
        have hni : i ∉ rest := (List.nodup_cons.mp hnd).1
        cases hj : tasks.get? i with
        | none =>
            simp only [completions, hj]
            exact lookup_completions_not_mem tasks rest i hni
        | some v =>
            simp only [completions, hj, List.lookup, beq_self_eq_true]
      · have hirest : i ∈ rest := by
          rcases List.mem_cons.mp hi with h1 | h1
          · exact absurd h1 hij
          · exact h1
        have hndr : rest.Nodup := (List.nodup_cons.mp hnd).2
        have hb : (i == j) = false := by simpa using hij
        cases hj : tasks.get? j with
        | none =>
            simp only [completions, hj]
            exact ih hndr hirest
        | some v =>
            simp only [completions, hj, List.lookup, hb]
            exact ih hndr hirest

theorem map_get?_range (l : List (Option Json)) :
    (List.range l.length).map (fun i => l.get? i) = l.map some := by
  induction l with
  | nil => rfl
  | cons a t ih =>
      have h1 : List.range (a :: t).length =
          0 :: (List.range t.length).map Nat.succ := by
        simpa using List.range_succ_eq_map t.length
      have hf : ((fun i => (a :: t).get? i) ∘ Nat.succ) = (fun i => t.get? i) := by
        funext i
        rfl
      rw [h1, List.map_cons, List.map_map, hf, ih]
      rfl

theorem gatherByIndex_perm (tasks : List (Option Json)) (order : List Nat)
    (h : order.Perm (List.range tasks.length)) :
    gatherByIndex tasks order = tasks.map some := by
  have hnd : order.Nodup := h.nodup_iff.mpr (List.nodup_range tasks.length)
  unfold gatherByIndex
  rw [← map_get?_range]
  apply List.map_congr_left
  intro i hi
  exact lookup_completions_mem tasks order hnd i (h.mem_iff.mpr hi)

theorem validateStep_snd (raw : List (Option Json)) (acc : List Record)
    (log : List LogEvent) :
    (validateStep raw acc log).2 = (pageContrib raw).map (fun l => acc ++ l) := by
  induction raw generalizing acc log with
  | nil => simp [validateStep, pageContrib]
  | cons hd tl ih =>
      cases hd with
      | none => simp [validateStep, pageContrib, ih]
      | some resp =>
          simp only [validateStep, pageContrib]
          cases ApiValidator.validate resp with
          | none => rfl
          | some v =>
              rw [ih]
              cases pageContrib tl with
              | none => rfl
              | some l => simp

theorem pageContrib_isSome (raw : List (Option Json))
    (h : ∀ r ∈ raw, ∀ v, r = some v → (ApiValidator.validate v).isSome) :
    (pageContrib raw).isSome := by
  induction raw with
  | nil => rfl
  | cons hd tl ih =>
      have htl := ih (fun r hr v hv => h r (List.mem_cons_of_mem hd hr) v hv)
      cases hd with
      | none => simpa [pageContrib] using htl
      | some resp =>
          have hv := h (some resp) (List.mem_cons_self _ _) resp rfl
          cases hval : ApiValidator.validate resp with
          | none => rw [hval] at hv; cases hv
          | some v =>
              simp only [pageContrib, hval]
              cases hc : pageContrib tl with
              | none => rw [hc] at htl; cases htl
              | some l => rfl

theorem validateItems_of_forall (xs : List Json)
    (h : ∀ x ∈ xs, ∃ io r, x = Json.obj io ∧ discriminateItem io = some r) :
    ∃ rs, validateItems xs = some rs ∧ rs.length = xs.length := by
  induction xs with
  | nil => exact ⟨[], rfl, rfl⟩
  | cons hd tl ih =>
      obtain ⟨io, r, rfl, hr⟩ := h hd (List.mem_cons_self _ _)
      obtain ⟨rs, hrs, hlen⟩ := ih (fun x hx => h x (List.mem_cons_of_mem _ hx))
      refine ⟨r :: rs, ?_, by simp [hlen]⟩
      simp [validateItems, hr, hrs]

/-- Claim C5: a record validated from the item object with id 7 and
first_name A, then mapped with version_id 3, is a persisted user record
with id 7, first_name A, version_id 3 and every other User field
absent. -/
theorem user_round_trip_concrete :
    discriminateItem [(("id"), Json.int 7), (("first_name"), Json.str ("A"))] =
      some (Record.user ⟨none, none, 7, some ("A"), none, none, none, none⟩) ∧
    build_user_data_schema ⟨none, none, 7, some ("A"), none, none, none, none⟩ 3 =
      some ⟨none, none, 3, 7, some ("A"), none, none, none, none⟩ :=
  ⟨rfl, rfl⟩

/-- Claim C1 (evaluation of the code at the failing input): a stored
page payload that fails schema validation is not skipped.  The
validator returns its None failure marker, Ingest.validate dereferences
it, and the whole run aborts with no surviving state, instead of
contributing zero records and continuing. -/
theorem validate_aborts_on_page_failure :
    ApiValidator.validate badEnv = none ∧
    ((⟨1, [some badEnv], []⟩ : Ingest).validate).2 = none :=
  ⟨rfl, rfl⟩

/-- Claim C2: on a Manager whose Executor is unset, an absent probe
fetch makes configure raise ConnectionError; no Executor is constructed
and none of the configuration fields are modified. -/
theorem configure_absent_probe (m : IngestManager)
    (fetch : Request → Option Json) (rs : Nat) (tot : Option Int)
    (hun : m.ingest = none)
    (hprobe : fetch ⟨m.endpoint.value, 1, rs⟩ = none) :
    m.configure fetch rs tot = (m, some ConfigError.connectionError) ∧
    (m.configure fetch rs tot).1.ingest = none ∧
    (m.configure fetch rs tot).1.request_size = m.request_size ∧
    (m.configure fetch rs tot).1.request_num = m.request_num ∧
    (m.configure fetch rs tot).1.pages = m.pages ∧
    (m.configure fetch rs tot).1.total = m.total := by
  have h : m.configure fetch rs tot = (m, some ConfigError.connectionError) := by
    unfold IngestManager.configure
    rw [hprobe]
  exact ⟨h, by rw [h]; exact hun, by rw [h], by rw [h], by rw [h], by rw [h]⟩

theorem configure_absent_probe_witness :
    (IngestManager.init 3 Endpoints.USERS).configure (fun _ => none) 10 none =
      (IngestManager.init 3 Endpoints.USERS, some ConfigError.connectionError) :=
  (configure_absent_probe (IngestManager.init 3 Endpoints.USERS)
    (fun _ => none) 10 none rfl rfl).1

/-- Claim C9 (counterexample): the item object with id 1 and artist A
carries a valid positive id yet is not validated as the User variant:
union resolution picks the Track member for it. -/
theorem discriminate_id_artist_is_track :
    discriminateItem [(("id"), Json.int 1), (("artist"), Json.str ("A"))] =
      some (Record.track ⟨none, none, 1, none, some ("A"), none, none, none, none⟩) :=
  rfl

/-- Claim C9 (amended): variant discrimination follows pydantic's
smart-union scoring, not bare member order: every member that
validates is scored by its number of set fields and the best score
wins, earlier members (User first) winning ties.  An object setting
only shared fields, such as a bare id, validates as User by tie-break;
an object that also carries Track-only fields such as artist, duration
or album scores higher as Track and validates as Track with those
fields preserved. -/
theorem smart_union_discrimination :
    (discriminateItem [(("id"), Json.int 7)] =
      some (Record.user ⟨none, none, 7, none, none, none, none, none⟩)) ∧
    (discriminateItem [(("id"), Json.int 7), (("artist"), Json.str ("A")),
        (("duration"), Json.str ("3:45")), (("album"), Json.str ("X"))] =
      some (Record.track ⟨none, none, 7, none, some ("A"), none,
        some ("3:45"), none, some ("X")⟩)) ∧
    (∀ (o : List (String × Json)) (u : UserRec), validateUser o = some u →
      (∀ t, validateTrack o = some t →
        fieldsSetCount o trackFieldNames ≤ fieldsSetCount o userFieldNames) →
      (∀ l, validateListen o = some l →
        fieldsSetCount o listenFieldNames ≤ fieldsSetCount o userFieldNames) →
      discriminateItem o = some (Record.user u)) := by
  refine ⟨rfl, rfl, ?_⟩
  intro o u hu ht hl
  unfold discriminateItem
  rw [hu]
  cases htv : validateTrack o with
  | none =>
      cases hlv : validateListen o with
      | none => rfl
      | some l =>
          have hle := hl l hlv
          simp [pickBest, Nat.not_lt.mpr hle]
  | some t =>
      have hte := ht t htv
      cases hlv : validateListen o with
      | none => simp [pickBest, Nat.not_lt.mpr hte]
      | some l =>
          have hle := hl l hlv
          by_cases hc : fieldsSetCount o trackFieldNames <
              fieldsSetCount o listenFieldNames
          · simp [pickBest, hc, Nat.not_lt.mpr hle]
          · simp [pickBest, hc, Nat.not_lt.mpr hte]

theorem smart_union_discrimination_witness :
    discriminateItem [(("id"), Json.int 9)] =
      some (Record.user ⟨none, none, 9, none, none, none, none, none⟩) :=
  smart_union_discrimination.2.2 [(("id"), Json.int 9)]
    ⟨none, none, 9, none, none, none, none, none⟩ rfl
    (fun _ _ => by decide) (fun _ _ => by decide)

theorem validate_snd_eq (ing : Ingest) :
    (ing.validate).2 = (pageContrib ing.data_raw).map
      (fun fresh => { ing with
        data_validated := ing.data_validated ++ fresh }) := by
  unfold Ingest.validate
  have h := validateStep_snd ing.data_raw ing.data_validated []
  rcases hs : validateStep ing.data_raw ing.data_validated [] with ⟨log, res⟩
  rw [hs] at h
  simp only at h
  subst h
  cases hc : pageContrib ing.data_raw with
  | none => simp [hc]
  | some fresh => simp [hc]

/-- Claim C10: the validation step accumulates rather than replaces:
each successful validate pass appends the pages' fresh records after
the pre-call contents, so a second pass over the same unchanged raw
results appends a duplicate of every record, while execute fully
overwrites the raw-results list on each call. -/
theorem validate_accumulates_execute_overwrites :
    (∀ (ing ing2 : Ingest), (ing.validate).2 = some ing2 →
      ∃ fresh, pageContrib ing.data_raw = some fresh ∧
        ing2.data_validated = ing.data_validated ++ fresh ∧
        ing2.data_raw = ing.data_raw ∧
        ing2.request_num = ing.request_num) ∧
    (∀ (ing ing2 ing3 : Ingest), (ing.validate).2 = some ing2 →
      (ing2.validate).2 = some ing3 →
      ∃ fresh, pageContrib ing.data_raw = some fresh ∧
        ing3.data_validated = (ing.data_validated ++ fresh) ++ fresh) ∧
    (∀ (ing : Ingest) (fetch : Request → Option Json) (ep : String)
        (size sp : Nat),
      (ing.execute fetch ep size sp).data_raw =
        (ing.requests ep size sp).map fetch) ∧
    (∀ (ing ing2 : Ingest) (fetch : Request → Option Json) (ep : String)
        (size sp : Nat), ing.request_num = ing2.request_num →
      (ing.execute fetch ep size sp).data_raw =
        (ing2.execute fetch ep size sp).data_raw) := by
  have key : ∀ (ing ing2 : Ingest), (ing.validate).2 = some ing2 →
      ∃ fresh, pageContrib ing.data_raw = some fresh ∧
        ing2.data_validated = ing.data_validated ++ fresh ∧
        ing2.data_raw = ing.data_raw ∧
        ing2.request_num = ing.request_num := by
    intro ing ing2 h
    rw [validate_snd_eq] at h
    cases hc : pageContrib ing.data_raw with
    | none => rw [hc] at h; cases h
    | some fresh =>
        rw [hc] at h
        refine ⟨fresh, rfl, ?_⟩
        cases h
        exact ⟨rfl, rfl, rfl⟩
  refine ⟨key, ?_, ?_, ?_⟩
  · intro ing ing2 ing3 h1 h2
    obtain ⟨fresh, hc, hdv, hdr, _⟩ := key ing ing2 h1
    obtain ⟨fresh2, hc2, hdv2, _, _⟩ := key ing2 ing3 h2
    rw [hdr, hc] at hc2
    cases hc2
    exact ⟨fresh, hc, by rw [hdv2, hdv]⟩
  · intro ing fetch ep size sp
    rfl
  · intro ing ing2 fetch ep size sp h
    unfold Ingest.execute Ingest.requests
    rw [h]

theorem validate_accumulates_witness :
    ∃ fresh, pageContrib ([some env10] : List (Option Json)) = some fresh ∧
      (⟨1, [some env10], []⟩ : Ingest).data_validated ++ fresh ++ fresh =
        fresh ++ fresh := by
  have h2 := validate_accumulates_execute_overwrites.2.1
    (⟨1, [some env10], []⟩ : Ingest)
    (⟨1, [some env10], env10Rec.items⟩ : Ingest)
    (⟨1, [some env10], env10Rec.items ++ env10Rec.items⟩ : Ingest) rfl rfl
  obtain ⟨fresh, hc, _⟩ := h2
  exact ⟨fresh, hc, rfl⟩

/-- Claim C8: with five configured pages where page 3 resolved to the
absent marker and the others to a well-formed ten-item payload, the
validation pass yields exactly forty validated records and logs one
warning for the absent page; and an absent raw result never makes the
pass abort: only a present payload that fails validation can. -/
theorem validate_skips_absent_pages :
    ((st5.validate).2.map (fun s => s.data_validated.length)) = some 40 ∧
    (((st5.validate).1).filter
      (fun e => decide (e.level = LogLevel.warning))).length = 1 ∧
    (∀ ing : Ingest,
      (∀ r ∈ ing.data_raw, ∀ v, r = some v →
        (ApiValidator.validate v).isSome) →
      ((ing.validate).2).isSome) := by
  refine ⟨rfl, rfl, ?_⟩
  intro ing h
  rw [validate_snd_eq]
  have hs := pageContrib_isSome ing.data_raw h
  cases hc : pageContrib ing.data_raw with
  | none => rw [hc] at hs; cases hs
  | some fresh => rfl

theorem validate_skips_absent_pages_witness :
    (((⟨2, [none, some env10], []⟩ : Ingest).validate).2).isSome := by
  apply validate_skips_absent_pages.2.2
  intro r hr v hv
  rcases List.mem_cons.mp hr with h1 | h1
  · rw [h1] at hv; cases hv
  · have h2 : r = some env10 := by simpa using h1
    rw [h2] at hv
    cases hv
    rfl

/-- Claim C3: a page payload whose five envelope fields are well-typed
positive integers and whose items list is non-empty with well-typed
entries validates successfully with its item count preserved, and any
payload whose items list is empty fails validation. -/
theorem api_validate_item_count :
    (∀ (o : List (String × Json)) (t p s pg : Int) (xs : List Json),
      asPosInt (lookupField o ("total")) = some t →
      asPosInt (lookupField o ("page")) = some p →
      asPosInt (lookupField o ("size")) = some s →
      asPosInt (lookupField o ("pages")) = some pg →
      lookupField o ("items") = some (Json.arr xs) →
      1 ≤ xs.length →
      (∀ x ∈ xs, ∃ io r, x = Json.obj io ∧ discriminateItem io = some r) →
      ∃ env, ApiValidator.validate (Json.obj o) = some env ∧
        env.items.length = xs.length) ∧
    (∀ (o : List (String × Json)),
      lookupField o ("items") = some (Json.arr []) →
      ApiValidator.validate (Json.obj o) = none) := by
  constructor
  · intro o t p s pg xs ht hp hs hpg hit hlen hwt
    obtain ⟨rs, hrs, hrslen⟩ := validateItems_of_forall xs hwt
    refine ⟨⟨t, p, s, pg, rs⟩, ?_, hrslen⟩
    simp only [ApiValidator.validate]
    rw [ht, hp, hs, hpg, hit]
    dsimp only
    rw [hrs]
    exact if_pos (by omega)
  · intro o h
    simp only [ApiValidator.validate]
    rw [h]
    cases asPosInt (lookupField o ("total")) <;>
      cases asPosInt (lookupField o ("page")) <;>
      cases asPosInt (lookupField o ("size")) <;>
      cases asPosInt (lookupField o ("pages")) <;>
      simp [validateItems]

theorem api_validate_item_count_witness :
    ∃ env, ApiValidator.validate env10 = some env ∧ env.items.length = 10 := by
  have h := api_validate_item_count.1
    [(("total"), Json.int 50), (("page"), Json.int 1), (("size"), Json.int 10),
     (("pages"), Json.int 5),
     (("items"), Json.arr [userItem 1, userItem 2, userItem 3, userItem 4,
                           userItem 5, userItem 6, userItem 7, userItem 8,
                           userItem 9, userItem 10])]
    50 1 10 5
    [userItem 1, userItem 2, userItem 3, userItem 4, userItem 5,
     userItem 6, userItem 7, userItem 8, userItem 9, userItem 10]
    rfl rfl rfl rfl rfl (by decide)
    (by
      intro x hx
      fin_cases hx <;>
        exact ⟨_, userRecOf _, rfl, rfl⟩)
  exact h

/-- Claim C6: for every well-formed validated record and positive
version_id, the registered mapping function succeeds, copies every
field of the input unchanged, attaches version_id, and is a pure
function, so mapping the same record twice gives identical persisted
records. -/
theorem builders_total_copy_version :
    (∀ (u : UserRec), WFUser u → ∀ v : Int, 0 < v →
      ∃ p, build_user_data_schema u v = some p ∧
        p.version_id = v ∧ p.id = u.id ∧ p.first_name = u.first_name ∧
        p.last_name = u.last_name ∧ p.email = u.email ∧
        p.gender = u.gender ∧ p.favorite_genres = u.favorite_genres ∧
        p.created_at = u.created_at ∧ p.updated_at = u.updated_at) ∧
    (∀ (t : TrackRec), WFTrack t → ∀ v : Int, 0 < v →
      ∃ p, build_track_data_schema t v = some p ∧
        p.version_id = v ∧ p.id = t.id ∧ p.name = t.name ∧
        p.artist = t.artist ∧ p.songwriters = t.songwriters ∧
        p.duration = t.duration ∧ p.genres = t.genres ∧
        p.album = t.album ∧ p.created_at = t.created_at ∧
        p.updated_at = t.updated_at) ∧
    (∀ (l : ListenRec), WFListen l → ∀ v : Int, 0 < v →
      ∃ p, build_listen_history_data_schema l v = some p ∧
        p.version_id = v ∧ p.user_id = l.user_id ∧ p.items = l.items ∧
        p.created_at = l.created_at ∧ p.updated_at = l.updated_at) ∧
    (∀ (r : Record), WFRecord r → ∀ v : Int, 0 < v →
      (builderFor r r v).isSome ∧ builderFor r r v = builderFor r r v) := by
  have hu : ∀ (u : UserRec), WFUser u → ∀ v : Int, 0 < v →
      ∃ p, build_user_data_schema u v = some p ∧
        p.version_id = v ∧ p.id = u.id ∧ p.first_name = u.first_name ∧
        p.last_name = u.last_name ∧ p.email = u.email ∧
        p.gender = u.gender ∧ p.favorite_genres = u.favorite_genres ∧
        p.created_at = u.created_at ∧ p.updated_at = u.updated_at := by
    intro u hwf v hv
    refine ⟨⟨u.created_at, u.updated_at, v, u.id, u.first_name, u.last_name,
      u.email, u.gender, u.favorite_genres⟩, ?_,
      rfl, rfl, rfl, rfl, rfl, rfl, rfl, rfl, rfl⟩
    unfold build_user_data_schema build_common_data_schema
    rw [if_pos hv]
    exact if_pos hwf
  have htk : ∀ (t : TrackRec), WFTrack t → ∀ v : Int, 0 < v →
      ∃ p, build_track_data_schema t v = some p ∧
        p.version_id = v ∧ p.id = t.id ∧ p.name = t.name ∧
        p.artist = t.artist ∧ p.songwriters = t.songwriters ∧
        p.duration = t.duration ∧ p.genres = t.genres ∧
        p.album = t.album ∧ p.created_at = t.created_at ∧
        p.updated_at = t.updated_at := by
    intro t hwf v hv
    refine ⟨⟨t.created_at, t.updated_at, v, t.id, t.name, t.artist,
      t.songwriters, t.duration, t.genres, t.album⟩, ?_,
      rfl, rfl, rfl, rfl, rfl, rfl, rfl, rfl, rfl, rfl⟩
    unfold build_track_data_schema build_common_data_schema
    rw [if_pos hv]
    exact if_pos hwf
  have hls : ∀ (l : ListenRec), WFListen l → ∀ v : Int, 0 < v →
      ∃ p, build_listen_history_data_schema l v = some p ∧
        p.version_id = v ∧ p.user_id = l.user_id ∧ p.items = l.items ∧
        p.created_at = l.created_at ∧ p.updated_at = l.updated_at := by
    intro l hwf v hv
    refine ⟨⟨l.created_at, l.updated_at, v, l.user_id, l.items⟩, ?_,
      rfl, rfl, rfl, rfl, rfl⟩
    unfold build_listen_history_data_schema build_common_data_schema
    rw [if_pos hv]
    exact if_pos (by exact ⟨hwf.1, hwf.2⟩)
  refine ⟨hu, htk, hls, ?_⟩
  intro r hwf v hv
  refine ⟨?_, rfl⟩
  cases r with
  | user u =>
      obtain ⟨p, hp, _⟩ := hu u hwf v hv
      simp [builderFor, endpoint_builder_map, hp]
  | track t =>
      obtain ⟨p, hp, _⟩ := htk t hwf v hv
      simp [builderFor, endpoint_builder_map, hp]
  | listen l =>
      obtain ⟨p, hp, _⟩ := hls l hwf v hv
      simp [builderFor, endpoint_builder_map, hp]

theorem builders_total_copy_version_witness :
    ∃ p, build_user_data_schema ⟨none, none, 7, some ("A"), none, none, none,
      none⟩ 3 = some p ∧
      p.version_id = 3 ∧ p.id = 7 ∧ p.first_name = some ("A") ∧
      p.last_name = none ∧ p.email = none ∧ p.gender = none ∧
      p.favorite_genres = none ∧ p.created_at = none ∧ p.updated_at = none :=
  builders_total_copy_version.1
    ⟨none, none, 7, some ("A"), none, none, none, none⟩
    (by show (0 : Int) < 7; decide) 3 (by decide)

/-- Claim C7: with start_page at most the page count, execute issues
exactly one fetch per page number in [start_page, request_num], each
with query page = n and size = page_size, and stores the results in
request page-number order; gathering the same tasks under any
completion order yields that same page-ordered sequence, so the output
is deterministic and independent of I/O completion timing. -/
theorem execute_pages_in_order (ing : Ingest) (fetch : Request → Option Json)
    (ep : String) (size sp : Nat) (order : List Nat)
    (hsp : sp ≤ ing.request_num) :
    (ing.requests ep size sp).length = ing.request_num - sp + 1 ∧
    (∀ i, i < ing.request_num - sp + 1 →
      (ing.requests ep size sp).get? i =
        some (⟨ep, sp + i, size⟩ : Request)) ∧
    (ing.execute fetch ep size sp).data_raw =
      (ing.requests ep size sp).map fetch ∧
    (order.Perm (List.range ((ing.requests ep size sp).map fetch).length) →
      gatherByIndex ((ing.requests ep size sp).map fetch) order =
        ((ing.requests ep size sp).map fetch).map some) := by
  have hlen : (pageList sp ing.request_num).length =
      ing.request_num - sp + 1 := by
    unfold pageList
    rw [List.length_range']
    omega
  refine ⟨?_, ?_, rfl, ?_⟩
  · unfold Ingest.requests
    rw [List.length_map, hlen]
  · intro i hi
    unfold Ingest.requests pageList
    rw [List.get?_map]
    have hr : (List.range' sp (ing.request_num + 1 - sp))[i]? =
        some (sp + 1 * i) :=
      List.getElem?_range' sp 1 (by omega)
    rw [List.get?_eq_getElem?, hr]
    simp
  · intro hperm
    exact gatherByIndex_perm _ order hperm

theorem execute_pages_in_order_witness :
    ((⟨3, [], []⟩ : Ingest).requests ("/users") 10 1).length = 3 - 1 + 1 :=
  (execute_pages_in_order (⟨3, [], []⟩ : Ingest) (fun _ => none) ("/users")
    10 1 [] (by decide)).1

theorem configure_success (m : IngestManager) (fetch : Request → Option Json)
    (rs : Nat) (tot : Option Int) (j : Json) (v : Envelope)
    (hf : fetch ⟨m.endpoint.value, 1, rs⟩ = some j)
    (hv : ApiValidator.validate j = some v) :
    m.configure fetch rs tot =
      ({ m with
          pages := some v.pages
          total := some (tot.getD v.total)
          request_size := some rs
          request_num := some (computeRequestNum (tot.getD v.total) rs)
          ingest := some (Ingest.init
            (computeRequestNum (tot.getD v.total) rs).toNat) }, none) := by
  unfold IngestManager.configure
  rw [hf]
  dsimp only
  rw [hv]

theorem roundHalfEven_le (x : ℚ) : (roundHalfEven x : ℚ) ≤ x + 1 / 2 := by
  unfold roundHalfEven
  have h1 : (⌊x⌋ : ℚ) ≤ x := Int.floor_le x
  split_ifs with h2 h3 h4
  · linarith
  · push_cast
    linarith
  · linarith
  · push_cast
    have h5 := not_lt.mp h2
    linarith

theorem le_roundHalfEven (x : ℚ) : x - 1 / 2 ≤ (roundHalfEven x : ℚ) := by
  unfold roundHalfEven
  have h1 : x < ⌊x⌋ + 1 := Int.lt_floor_add_one x
  split_ifs with h2 h3 h4
  · linarith
  · push_cast
    linarith
  · have h5 := not_lt.mp h3
    linarith
  · push_cast
    linarith

theorem roundHalfEven_intCast (n : ℤ) : roundHalfEven (n : ℚ) = n := by
  unfold roundHalfEven
  rw [Int.floor_intCast, if_pos (by norm_num : (n : ℚ) - n < 1 / 2)]

theorem roundFloat_ceil_eq (a : Int) (b : Nat) (ha0 : 0 ≤ a)
    (ha : a ≤ 2 ^ 53) (hb0 : 0 < b) (hb : b ≤ 2 ^ 53) :
    computeRequestNum a b = exactCeilDiv a b := by
  unfold computeRequestNum exactCeilDiv
  have h2ne : (2 : ℚ) ≠ 0 := by norm_num
  have hbQ : (0 : ℚ) < (b : ℚ) := by exact_mod_cast hb0
  rcases eq_or_lt_of_le ha0 with h0 | hapos
  · rw [← h0]
    norm_num [roundFloat]
  set q : ℚ := (a : ℚ) / (b : ℚ) with hqdef
  have hq0 : 0 < q := div_pos (by exact_mod_cast hapos) hbQ
  set e : ℤ := Int.log 2 q with hedef
  have hlow : ((2 : ℕ) : ℚ) ^ e ≤ q := Int.zpow_log_le_self (by norm_num) hq0
  have hhigh : q < ((2 : ℕ) : ℚ) ^ (e + 1) := Int.lt_zpow_succ_log_self (by norm_num) q
  rw [show ((2 : ℕ) : ℚ) = (2 : ℚ) by norm_num] at hlow hhigh
  have h53 : ((2 ^ 53 : ℤ) : ℚ) = (2 : ℚ) ^ (53 : ℤ) := by
    norm_num
  have hqle : q ≤ (2 : ℚ) ^ (53 : ℤ) := by
    have h1 : q ≤ (a : ℚ) := div_le_self (by exact_mod_cast ha0) (by exact_mod_cast hb0)
    have h2 : (a : ℚ) ≤ ((2 ^ 53 : ℤ) : ℚ) := by exact_mod_cast ha
    rw [h53] at h2
    exact h1.trans h2
  have he53 : e ≤ 53 :=
    (zpow_le_zpow_iff_right₀ (by norm_num : (1 : ℚ) < 2)).mp (hlow.trans hqle)
  have hbq : (b : ℚ) * q = (a : ℚ) := mul_div_cancel₀ _ (ne_of_gt hbQ)
  have hble : (b : ℚ) ≤ (2 : ℚ) ^ ((53 : ℤ) - e) := by
    have h1 : (b : ℚ) * (2 : ℚ) ^ e ≤ (2 : ℚ) ^ (53 : ℤ) := by
      have h2 := mul_le_mul_of_nonneg_left hlow (le_of_lt hbQ)
      rw [hbq] at h2
      have h3 : (a : ℚ) ≤ (2 : ℚ) ^ (53 : ℤ) := by
        rw [← h53]
        exact_mod_cast ha
      exact h2.trans h3
    have h4 : (2 : ℚ) ^ ((53 : ℤ) - e) * (2 : ℚ) ^ e = (2 : ℚ) ^ (53 : ℤ) := by
      rw [← zpow_add₀ h2ne]
      norm_num
    rw [← h4] at h1
    exact le_of_mul_le_mul_right h1 (zpow_pos (by norm_num) e)
  set scaled : ℚ := q * (2 : ℚ) ^ ((52 : ℤ) - e) with hsdef
  have hrf : roundFloat q = ((roundHalfEven scaled : ℤ) : ℚ) * (2 : ℚ) ^ (e - 52) := by
    unfold roundFloat
    rw [if_neg (not_le.mpr hq0), ← hedef, ← hsdef]
  have hcancel : (2 : ℚ) ^ ((52 : ℤ) - e) * (2 : ℚ) ^ (e - 52) = 1 := by
    rw [← zpow_add₀ h2ne]
    norm_num
  have hpos52e : (0 : ℚ) < (2 : ℚ) ^ ((52 : ℤ) - e) := zpow_pos (by norm_num) _
  have hpose52 : (0 : ℚ) < (2 : ℚ) ^ (e - (52 : ℤ)) := zpow_pos (by norm_num) _
  have hhalf : (2 : ℚ) ^ (e - (53 : ℤ)) * (2 : ℚ) ^ ((52 : ℤ) - e) = 1 / 2 := by
    rw [← zpow_add₀ h2ne]
    norm_num
  by_cases hint : ∃ n : ℤ, (n : ℚ) = q
  · -- an integer quotient is representable, so rounding is exact
    obtain ⟨n, hn⟩ := hint
    have hRNq : roundFloat q = q := by
      rcases lt_or_eq_of_le he53 with he52 | he53eq
      · obtain ⟨k, hk⟩ : ∃ k : ℕ, (52 : ℤ) - e = (k : ℤ) := ⟨((52 : ℤ) - e).toNat, by omega⟩
        have hsc_int : scaled = ((n * 2 ^ k : ℤ) : ℚ) := by
          rw [hsdef, ← hn, hk]
          push_cast
          rw [zpow_natCast]
        have hmul : ((n * 2 ^ k : ℤ) : ℚ) * (2 : ℚ) ^ (e - 52) = q := by
          rw [← hn]
          push_cast
          rw [mul_assoc, ← zpow_natCast (2 : ℚ) k, ← hk, hcancel, mul_one]
        rw [hrf, hsc_int, roundHalfEven_intCast, hmul]
      · have hq53 : q = (2 : ℚ) ^ (53 : ℤ) := le_antisymm hqle (by rw [he53eq] at hlow; exact hlow)
        have hsc_int : scaled = ((2 ^ 52 : ℤ) : ℚ) := by
          rw [hsdef, hq53, ← zpow_add₀ h2ne,
            show (53 : ℤ) + (52 - e) = 52 from by omega]
          norm_num
        have hmul : ((2 ^ 52 : ℤ) : ℚ) * (2 : ℚ) ^ (e - 52) = q := by
          rw [hq53, show ((2 ^ 52 : ℤ) : ℚ) = (2 : ℚ) ^ (52 : ℤ) from by norm_num,
            ← zpow_add₀ h2ne, show (52 : ℤ) + (e - 52) = 53 from by omega]
        rw [hrf, hsc_int, roundHalfEven_intCast, hmul]
    rw [hRNq]
  · -- a non-integer quotient: the round cannot cross the ceiling
    set m : ℤ := ⌊q⌋ with hmdef
    have hmlt : (m : ℚ) < q := lt_of_le_of_ne (Int.floor_le q) (fun h => hint ⟨m, h⟩)
    have hqn : q < (m : ℚ) + 1 := Int.lt_floor_add_one q
    have hceil : ⌈q⌉ = m + 1 := by
      have h1 : ⌈q⌉ ≤ m + 1 := Int.ceil_le_floor_add_one q
      have h2 : m < ⌈q⌉ := by
        have h3 : (m : ℚ) < (⌈q⌉ : ℚ) := lt_of_lt_of_le hmlt (Int.le_ceil q)
        exact_mod_cast h3
      omega
    have he52 : e ≤ 52 := by
      rcases lt_or_eq_of_le he53 with h | h
      · omega
      · exfalso
        have hq53 : q = (2 : ℚ) ^ (53 : ℤ) := le_antisymm hqle (by rw [h] at hlow; exact hlow)
        exact hint ⟨2 ^ 53, by rw [hq53, ← h53]⟩
    obtain ⟨k, hk⟩ : ∃ k : ℕ, (52 : ℤ) - e = (k : ℤ) := ⟨((52 : ℤ) - e).toNat, by omega⟩
    have h2k : ((2 ^ k : ℤ) : ℚ) = (2 : ℚ) ^ ((52 : ℤ) - e) := by
      rw [hk]
      push_cast
      rw [zpow_natCast]
    have hmb : m * (b : ℤ) + 1 ≤ a := by
      have h1 : (m : ℚ) * (b : ℚ) < (a : ℚ) := by
        have h2 := mul_lt_mul_of_pos_right hmlt hbQ
        rw [hqdef, div_mul_cancel₀ _ (ne_of_gt hbQ)] at h2
        exact h2
      have h3 : (m * (b : ℤ) : ℤ) < a := by exact_mod_cast h1
      omega
    -- the fractional part is at least half an ulp
    have hfrac_ge : (2 : ℚ) ^ (e - (53 : ℤ)) ≤ q - m := by
      have h1 : (1 : ℚ) ≤ (q - m) * (b : ℚ) := by
        have h2 : (q - m) * (b : ℚ) = (a : ℚ) - (m : ℚ) * (b : ℚ) := by
          rw [sub_mul, mul_comm (q : ℚ) (b : ℚ), hbq]
        rw [h2]
        have h3 : ((m * (b : ℤ) + 1 : ℤ) : ℚ) ≤ ((a : ℤ) : ℚ) := by exact_mod_cast hmb
        push_cast at h3
        linarith
      have h4 : (2 : ℚ) ^ (e - (53 : ℤ)) * (b : ℚ) ≤ 1 := by
        have h5 := mul_le_mul_of_nonneg_left hble (le_of_lt (zpow_pos (by norm_num : (0:ℚ) < 2) (e - 53)))
        rw [← zpow_add₀ h2ne] at h5
        have h6 : e - 53 + (53 - e) = 0 := by ring
        rw [h6, zpow_zero] at h5
        exact h5
      have h7 : (2 : ℚ) ^ (e - (53 : ℤ)) * (b : ℚ) ≤ (q - m) * (b : ℚ) := h4.trans h1
      exact le_of_mul_le_mul_right h7 hbQ
    -- an exact half-ulp tie is impossible when the dividend is within 2^53
    have hfrac_gt : (2 : ℚ) ^ (e - (53 : ℤ)) < q - m := by
      rcases lt_or_eq_of_le hfrac_ge with h | heq
      · exact h
      exfalso
      have h1 : (q - m) * (b : ℚ) = (a : ℚ) - (m : ℚ) * (b : ℚ) := by
        rw [sub_mul, mul_comm (q : ℚ) (b : ℚ), hbq]
      have h4 : (2 : ℚ) ^ (e - (53 : ℤ)) * (b : ℚ) ≤ 1 := by
        have h5 := mul_le_mul_of_nonneg_left hble (le_of_lt (zpow_pos (by norm_num : (0:ℚ) < 2) (e - 53)))
        rw [← zpow_add₀ h2ne] at h5
        have h6 : e - 53 + (53 - e) = 0 := by ring
        rw [h6, zpow_zero] at h5
        exact h5
      have h8 : (1 : ℚ) ≤ (q - m) * (b : ℚ) := by
        rw [h1]
        have h3 : ((m * (b : ℤ) + 1 : ℤ) : ℚ) ≤ ((a : ℤ) : ℚ) := by exact_mod_cast hmb
        push_cast at h3
        linarith
      have h9 : (q - m) * (b : ℚ) = 1 := by
        rw [heq] at h4
        linarith
      have hab : (a : ℚ) = (m : ℚ) * (b : ℚ) + 1 := by
        rw [h1] at h9
        linarith
      have hbeq : (b : ℚ) = (2 : ℚ) ^ ((53 : ℤ) - e) := by
        have h10 : (2 : ℚ) ^ (e - (53 : ℤ)) * (b : ℚ) = 1 := by
          rw [heq]
          exact h9
        have h11 := congrArg (fun x => (2 : ℚ) ^ ((53 : ℤ) - e) * x) h10
        simp only [mul_one] at h11
        rw [← mul_assoc, ← zpow_add₀ h2ne] at h11
        have h12 : (53 : ℤ) - e + (e - 53) = 0 := by ring
        rw [h12, zpow_zero, one_mul] at h11
        exact h11
      have he0 : 0 ≤ e := by
        have h13 : (2 : ℚ) ^ ((53 : ℤ) - e) ≤ (2 : ℚ) ^ (53 : ℤ) := by
          rw [← hbeq, ← h53]
          exact_mod_cast hb
        have h14 := (zpow_le_zpow_iff_right₀ (by norm_num : (1 : ℚ) < 2)).mp h13
        omega
      have hm2e : (m : ℚ) + 1 ≤ (2 : ℚ) ^ e := by
        have h15 : (m : ℚ) * (b : ℚ) < (2 : ℚ) ^ (53 : ℤ) := by
          have h16 : (a : ℚ) ≤ (2 : ℚ) ^ (53 : ℤ) := by
            rw [← h53]
            exact_mod_cast ha
          linarith [hab]
        have h17 : (2 : ℚ) ^ e * (2 : ℚ) ^ ((53 : ℤ) - e) = (2 : ℚ) ^ (53 : ℤ) := by
          rw [← zpow_add₀ h2ne]
          norm_num
        rw [hbeq, ← h17] at h15
        have h18 : (m : ℚ) < (2 : ℚ) ^ e :=
          lt_of_mul_lt_mul_right h15 (le_of_lt (zpow_pos (by norm_num) _))
        obtain ⟨j, hj⟩ : ∃ j : ℕ, e = (j : ℤ) := ⟨e.toNat, by omega⟩
        have h19 : (2 : ℚ) ^ e = ((2 ^ j : ℤ) : ℚ) := by
          rw [hj]
          push_cast
          rw [zpow_natCast]
        rw [h19] at h18 ⊢
        have h20 : m < 2 ^ j := by exact_mod_cast h18
        have h21 : m + 1 ≤ 2 ^ j := by omega
        exact_mod_cast h21
      have := hlow
      linarith
    -- the round stays strictly above the floor
    have hlb : (m : ℚ) < roundFloat q := by
      rw [hrf]
      have h1 : (m : ℚ) * (2 : ℚ) ^ ((52 : ℤ) - e) < scaled - 1 / 2 := by
        rw [hsdef]
        have h2 : (q - m) * (2 : ℚ) ^ ((52 : ℤ) - e) >
            (2 : ℚ) ^ (e - (53 : ℤ)) * (2 : ℚ) ^ ((52 : ℤ) - e) :=
          mul_lt_mul_of_pos_right hfrac_gt hpos52e
        rw [hhalf] at h2
        nlinarith [h2]
      have h3 := le_roundHalfEven scaled
      have h4 : (m : ℚ) * (2 : ℚ) ^ ((52 : ℤ) - e) < (roundHalfEven scaled : ℚ) := by
        linarith
      have h5 := mul_lt_mul_of_pos_right h4 hpose52
      rw [mul_assoc, hcancel, mul_one] at h5
      exact h5
    -- the round stays at or below the ceiling
    have hub : roundFloat q ≤ (m : ℚ) + 1 := by
      by_contra hcon
      push_neg at hcon
      rw [hrf] at hcon
      have h1 : ((m + 1 : ℤ) : ℚ) * (2 : ℚ) ^ ((52 : ℤ) - e) <
          (roundHalfEven scaled : ℚ) := by
        have h2 := mul_lt_mul_of_pos_right hcon hpos52e
        rw [mul_assoc, mul_comm ((2:ℚ) ^ (e - 52)) ((2:ℚ) ^ ((52:ℤ) - e)), hcancel, mul_one] at h2
        push_cast
        linarith
      have h3 : ((m + 1 : ℤ) * 2 ^ k : ℤ) < roundHalfEven scaled := by
        have h4 : (((m + 1 : ℤ) * 2 ^ k : ℤ) : ℚ) < (roundHalfEven scaled : ℚ) := by
          push_cast
          rw [show ((2:ℚ) ^ k) = (2 : ℚ) ^ ((52 : ℤ) - e) by rw [← zpow_natCast (2:ℚ) k, ← hk]]
          push_cast at h1
          linarith
        exact_mod_cast h4
      have h5 : (((m + 1 : ℤ) * 2 ^ k : ℤ) : ℚ) + 1 ≤ (roundHalfEven scaled : ℚ) := by
        have h6 : ((m + 1 : ℤ) * 2 ^ k : ℤ) + 1 ≤ roundHalfEven scaled := by omega
        exact_mod_cast h6
      have h7 := roundHalfEven_le scaled
      have h8 : (((m + 1 : ℤ) * 2 ^ k : ℤ) : ℚ) + 1 / 2 ≤ scaled := by linarith
      have h9 : ((m : ℚ) + 1) + (2 : ℚ) ^ (e - (53 : ℤ)) ≤ q := by
        have h10 := mul_le_mul_of_nonneg_right h8 (le_of_lt hpose52)
        rw [hsdef] at h10
        rw [mul_assoc, hcancel, mul_one] at h10
        have h11 : (((m + 1 : ℤ) * 2 ^ k : ℤ) : ℚ) * (2 : ℚ) ^ (e - (52 : ℤ)) =
            (m : ℚ) + 1 := by
          push_cast
          rw [show ((2:ℚ) ^ k) = (2 : ℚ) ^ ((52 : ℤ) - e) by rw [← zpow_natCast (2:ℚ) k, ← hk]]
          rw [mul_assoc, hcancel, mul_one]
        have h12 : (2 : ℚ) ^ (e - (53 : ℤ)) =
            (1 / 2 : ℚ) * (2 : ℚ) ^ (e - (52 : ℤ)) := by
          rw [show (1 / 2 : ℚ) = (2 : ℚ) ^ (-1 : ℤ) by norm_num,
            ← zpow_add₀ h2ne,
            show (-1 : ℤ) + (e - 52) = e - 53 by ring]
        rw [add_mul, h11, ← h12] at h10
        exact h10
      have h13 : (0 : ℚ) < (2 : ℚ) ^ (e - (53 : ℤ)) := zpow_pos (by norm_num) _
      linarith
    rw [hceil, Int.ceil_eq_iff]
    constructor
    · push_cast
      linarith
    · push_cast
      linarith

theorem exactCeilDiv_eq (a : Int) (b : Nat) (hb : 0 < b) :
    exactCeilDiv a b = (a + b - 1) / b := by
  have hbZ : (0 : Int) < (b : Int) := by exact_mod_cast hb
  have hbQ : (0 : ℚ) < (b : ℚ) := by exact_mod_cast hb
  have hdm := Int.ediv_add_emod (a + (b : Int) - 1) (b : Int)
  have hr0 : 0 ≤ (a + (b : Int) - 1) % (b : Int) :=
    Int.emod_nonneg _ (ne_of_gt hbZ)
  have hrb : (a + (b : Int) - 1) % (b : Int) < (b : Int) :=
    Int.emod_lt_of_pos _ hbZ
  set z : Int := (a + (b : Int) - 1) / (b : Int) with hzdef
  have h1 : (b : Int) * z ≤ a + (b : Int) - 1 := by linarith
  have haInt : a ≤ (b : Int) * z := Int.lt_add_one_iff.mp (by linarith)
  have h1Q : (b : ℚ) * (z : ℚ) ≤ (a : ℚ) + (b : ℚ) - 1 := by exact_mod_cast h1
  have haQ : (a : ℚ) ≤ (b : ℚ) * (z : ℚ) := by exact_mod_cast haInt
  unfold exactCeilDiv
  rw [Int.ceil_eq_iff]
  constructor
  · rw [lt_div_iff₀ hbQ]
    have hexp : ((z : ℚ) - 1) * (b : ℚ) = (b : ℚ) * (z : ℚ) - (b : ℚ) := by ring
    rw [hexp]
    linarith
  · rw [div_le_iff₀ hbQ]
    have hexp : (z : ℚ) * (b : ℚ) = (b : ℚ) * (z : ℚ) := by ring
    rw [hexp]
    exact haQ

theorem computeRequestNum_zero (rs : Nat) : computeRequestNum 0 rs = 0 := by
  unfold computeRequestNum roundFloat
  norm_num

/-- Claim C4 (counterexample): at an explicit total of 2 ^ 53 + 1 with
page size 1, the float division rounds the quotient down to 2 ^ 53
(ties to even on the dropped bit) before the ceiling is taken, so the
Manager's computed page count is 2 ^ 53 while the exact ceiling of
total over page size is 2 ^ 53 + 1. -/
theorem request_num_float_rounding_loss :
    ((IngestManager.init 3 Endpoints.USERS).configure (fun _ => some env10) 1
      (some (2 ^ 53 + 1))).1.request_num =
        some (computeRequestNum (2 ^ 53 + 1) 1) ∧
    computeRequestNum (2 ^ 53 + 1) 1 = 2 ^ 53 ∧
    exactCeilDiv (2 ^ 53 + 1) 1 = 2 ^ 53 + 1 ∧
    (2 ^ 53 : Int) ≠ 2 ^ 53 + 1 := by
  refine ⟨?_, ?_, ?_, by norm_num⟩
  · rw [configure_success (IngestManager.init 3 Endpoints.USERS)
      (fun _ => some env10) 1 (some (2 ^ 53 + 1)) env10 env10Rec rfl rfl]
    rfl
  · unfold computeRequestNum
    have hq : (((2 ^ 53 + 1 : ℤ) : ℚ) / ((1 : ℕ) : ℚ)) = ((2 ^ 53 + 1 : ℤ) : ℚ) := by
      norm_num
    rw [hq]
    have hlog : Int.log 2 ((2 ^ 53 + 1 : ℤ) : ℚ) = 53 := by
      rw [Int.log_of_one_le_right 2 (by norm_num : (1 : ℚ) ≤ ((2 ^ 53 + 1 : ℤ) : ℚ))]
      have hfl : ⌊((2 ^ 53 + 1 : ℤ) : ℚ)⌋₊ = 2 ^ 53 + 1 := by
        rw [← Int.floor_toNat, Int.floor_intCast]
        norm_num
        rfl
      rw [hfl]
      exact_mod_cast Nat.log_eq_of_pow_le_of_lt_pow (by norm_num) (by norm_num)
    unfold roundFloat
    rw [if_neg (by norm_num), hlog]
    have hsc : ((2 ^ 53 + 1 : ℤ) : ℚ) * (2 : ℚ) ^ ((52 : ℤ) - 53) =
        ((2 ^ 52 : ℤ) : ℚ) + 1 / 2 := by
      norm_num
    rw [hsc]
    have hfl2 : ⌊((2 ^ 52 : ℤ) : ℚ) + 1 / 2⌋ = 2 ^ 52 := by
      rw [Int.floor_eq_iff]
      constructor
      · norm_num
      · push_cast
        norm_num
    have hrhe : roundHalfEven (((2 ^ 52 : ℤ) : ℚ) + 1 / 2) = 2 ^ 52 := by
      unfold roundHalfEven
      rw [hfl2, if_neg (by push_cast; norm_num), if_neg (by push_cast; norm_num)]
      norm_num
    rw [hrhe]
    have hfin : ((2 ^ 52 : ℤ) : ℚ) * (2 : ℚ) ^ ((53 : ℤ) - 52) = ((2 ^ 53 : ℤ) : ℚ) := by
      norm_num
    rw [hfin, Int.ceil_intCast]
  · unfold exactCeilDiv
    rw [show ((1 : ℕ) : ℚ) = 1 by norm_num, div_one, Int.ceil_intCast]

/-- Claim C4 (amended): for nonnegative totals and positive page sizes
that do not exceed 2 ^ 53, the configured page count equals the exact
ceiling of total over page size (95/10 and 100/10 both give 10); an
explicit total of 0 gives page count 0, and running the manager
configured with total 0 issues zero fetches and produces zero validated
records with no error. -/
theorem request_num_is_ceil_bounded :
    (∀ (m : IngestManager) (fetch : Request → Option Json) (rs : Nat)
        (tot : Int) (j : Json) (v : Envelope),
      fetch ⟨m.endpoint.value, 1, rs⟩ = some j →
      ApiValidator.validate j = some v →
      0 < rs → rs ≤ 2 ^ 53 → 0 ≤ tot → tot ≤ 2 ^ 53 →
      (m.configure fetch rs (some tot)).1.request_num =
        some (computeRequestNum tot rs) ∧
      computeRequestNum tot rs = exactCeilDiv tot rs ∧
      exactCeilDiv tot rs = (tot + rs - 1) / rs) ∧
    computeRequestNum 95 10 = 10 ∧
    computeRequestNum 100 10 = 10 ∧
    computeRequestNum 0 10 = 0 ∧
    (∀ (m : IngestManager) (fetch : Request → Option Json) (rs : Nat)
        (j : Json) (v : Envelope) (save : Bool),
      fetch ⟨m.endpoint.value, 1, rs⟩ = some j →
      ApiValidator.validate j = some v → 0 < rs →
      ∃ out, ((m.configure fetch rs (some 0)).1.run fetch save) = some out ∧
        out.requests = [] ∧
        out.manager.ingest = some ((⟨0, [], []⟩ : Ingest)) ∧
        out.persisted =
          (if save then some ([] : List DataRecord) else none)) := by
  refine ⟨?_, ?_, ?_, ?_, ?_⟩
  · intro m fetch rs tot j v hf hv hrs hrs53 htot0 htot53
    rw [configure_success m fetch rs (some tot) j v hf hv]
    exact ⟨rfl, roundFloat_ceil_eq tot rs htot0 htot53 hrs hrs53,
      exactCeilDiv_eq tot rs hrs⟩
  · rw [roundFloat_ceil_eq 95 10 (by norm_num) (by norm_num) (by norm_num)
      (by norm_num), exactCeilDiv_eq 95 10 (by norm_num)]
    decide
  · rw [roundFloat_ceil_eq 100 10 (by norm_num) (by norm_num) (by norm_num)
      (by norm_num), exactCeilDiv_eq 100 10 (by norm_num)]
    decide
  · exact computeRequestNum_zero 10
  · intro m fetch rs j v save hf hv hrs
    rw [configure_success m fetch rs (some 0) j v hf hv]
    simp only [Option.getD_some]
    rw [computeRequestNum_zero rs]
    cases save with
    | false => exact ⟨_, rfl, rfl, rfl, rfl⟩
    | true => exact ⟨_, rfl, rfl, rfl, rfl⟩

theorem request_num_is_ceil_bounded_witness :
    (((IngestManager.init 3 Endpoints.USERS).configure (fun _ => some env10)
      10 (some 95)).1.request_num = some (computeRequestNum 95 10) ∧
      computeRequestNum 95 10 = exactCeilDiv 95 10 ∧
      exactCeilDiv 95 10 = (95 + 10 - 1) / 10) ∧
    ∃ out, (((IngestManager.init 3 Endpoints.USERS).configure
        (fun _ => some env10) 10 (some 0)).1.run
        (fun _ => some env10) true) = some out ∧
      out.requests = [] ∧
      out.manager.ingest = some ((⟨0, [], []⟩ : Ingest)) ∧
      out.persisted = (if true then some ([] : List DataRecord) else none) :=
  ⟨request_num_is_ceil_bounded.1 (IngestManager.init 3 Endpoints.USERS)
      (fun _ => some env10) 10 95 env10 env10Rec rfl rfl (by norm_num)
      (by norm_num) (by norm_num) (by norm_num),
    request_num_is_ceil_bounded.2.2.2.2 (IngestManager.init 3 Endpoints.USERS)
      (fun _ => some env10) 10 env10 env10Rec true rfl rfl (by norm_num)⟩
